import Mathlib

/-!
Shallow embedding of `openvdb/tools/RayTracer.h` (Film, RGBA, cameras' static
conversions, shaders, and the LevelSetRayTracer pixel loop).

Modelling conventions:
* C++ `float`/`double` channel and coordinate arithmetic is modelled by exact
  rational arithmetic (`ℚ`); the real-valued camera conversions that involve
  `atan`/`tan` are modelled over `ℝ`.
* `size_t` values are modelled by `ℕ`; where the source can overflow
  (`mSize = width*height`) the wrap-around is made explicit with `% 2 ^ 64`.
* the float-to-byte conversion `static_cast<unsigned char>` is partial
  (undefined behaviour outside the representable range), hence `Option ℕ`.
* virtual calls (`BaseShader::operator()`, `BaseCamera::getRay`) and the
  external intersector capability (`IntersectorT::intersectsWS`) are modelled
  as function-valued parameters of the tracer.
-/

/-- `Film::RGBA`: floating-point RGBA components (source stores `float`;
modelled with `ℚ`). -/
structure RGBA where
  r : ℚ
  g : ℚ
  b : ℚ
  a : ℚ
deriving DecidableEq, Repr

/-- `RGBA()` default constructor: `r(0), g(0), b(0), a(1)`. -/
def RGBA.default0 : RGBA := ⟨0, 0, 0, 1⟩

/-- `RGBA(ValueT intensity)`: grey with alpha 1. -/
def RGBA.gray (intensity : ℚ) : RGBA := ⟨intensity, intensity, intensity, 1⟩

/-- `RGBA::operator*(ValueT scale)`: `RGBA(r*scale, g*scale, b*scale)` — the
three-argument constructor defaults the alpha component to 1. -/
def RGBA.smul (c : RGBA) (scale : ℚ) : RGBA := ⟨c.r * scale, c.g * scale, c.b * scale, 1⟩

/-- `RGBA::operator+(const RGBA&)`: `RGBA(r+rhs.r, g+rhs.g, b+rhs.b)`, alpha
defaults to 1. -/
def RGBA.add (c rhs : RGBA) : RGBA := ⟨c.r + rhs.r, c.g + rhs.g, c.b + rhs.b, 1⟩

/-- `RGBA::operator*(const RGBA&)`: componentwise product, alpha defaults to 1. -/
def RGBA.mul (c rhs : RGBA) : RGBA := ⟨c.r * rhs.r, c.g * rhs.g, c.b * rhs.b, 1⟩

/-- `RGBA::operator+=`: `r+=rhs.r; g+=rhs.g; b+=rhs.b, a+=rhs.a;` — all four
components are accumulated (the comma operator still executes `a+=rhs.a`). -/
def RGBA.addAssign (c rhs : RGBA) : RGBA := ⟨c.r + rhs.r, c.g + rhs.g, c.b + rhs.b, c.a + rhs.a⟩

/-- `RGBA::over(const RGBA& rhs)`: `s = rhs.a*(1-a)`, then
`r = a*r+s*rhs.r` (similarly `g`, `b`) and `a = a + s`; `this` is the
bottom/accumulator, `rhs` the top. -/
def RGBA.over (c rhs : RGBA) : RGBA :=
  let s := rhs.a * (1 - c.a)
  ⟨c.a * c.r + s * rhs.r, c.a * c.g + s * rhs.g, c.a * c.b + s * rhs.b, c.a + s⟩

/-- The `Film` class: width, height, `mSize` and the linear pixel buffer
(`mPixels[w + h*mWidth]`), the buffer modelled as a total function on linear
indices. -/
structure Film where
  width : ℕ
  height : ℕ
  size : ℕ
  pixels : ℕ → RGBA

/-- Error taxonomy used to model a fallible construction interface. -/
inductive VdbError where
  | invalidArgument
  | ioError
deriving DecidableEq, Repr

/-- `Film::Film(size_t width, size_t height)`: stores the dimensions, computes
`mSize = width*height` in `size_t` arithmetic (wrap-around modulo `2^64`) and
allocates `mSize` default-constructed pixels.  No validation is performed. -/
def Film.create (w h : ℕ) : Film :=
  { width := w, height := h, size := (w * h) % 2 ^ 64, pixels := fun _ => RGBA.default0 }

/-- `Film::fill`: `for (i=0; i<mSize; ++i) mPixels[i] = rgb;`. -/
def Film.fill (f : Film) (rgb : RGBA) : Film :=
  { f with pixels := fun k => if k < f.size then rgb else f.pixels k }

/-- `Film::Film(size_t, size_t, const RGBA& bg)`: constructs and fills. -/
def Film.createBg (w h : ℕ) (bg : RGBA) : Film := (Film.create w h).fill bg

/-- The `Film` constructor exposed through a fallible interface: the source
constructor body contains no validation and no failure path, so construction
always succeeds. -/
def Film.tryCreate (w h : ℕ) : Except VdbError Film := Except.ok (Film.create w h)

/-- `Film::pixel(size_t w, size_t h)`: reads `mPixels[w + h*mWidth]`. -/
def Film.pixel (f : Film) (w h : ℕ) : RGBA := f.pixels (w + h * f.width)

/-- Writing through the reference returned by `Film::pixel(w, h)`:
updates the buffer at linear index `w + h*mWidth`. -/
def Film.setPixel (f : Film) (w h : ℕ) (c : RGBA) : Film :=
  { f with pixels := fun k => if k = w + h * f.width then c else f.pixels k }

/-- The colour `Film::checkerboard` stores at column `i`, row `j`:
`((i & size) ^ (j & size)) ? c1 : c2`. -/
def checkerColor (c1 c2 : RGBA) (sz i j : ℕ) : RGBA :=
  if ((i &&& sz) ^^^ (j &&& sz)) ≠ 0 then c1 else c2

/-- `Film::checkerboard`: the double loop over `j < mHeight`, `i < mWidth`
writes the pattern colour through an incrementing pointer, i.e. at linear
index `i + j*mWidth`. -/
def Film.checkerboard (f : Film) (c1 c2 : RGBA) (sz : ℕ) : Film :=
  { f with pixels := fun k =>
      if k < f.width * f.height then checkerColor c1 c2 sz (k % f.width) (k / f.width)
      else f.pixels k }

/-- `static_cast<unsigned char>(255.0f * v)` in `Film::savePPM`: conversion of
a floating value to `unsigned char` truncates toward zero and is undefined
unless the truncated value is representable, i.e. unless `-1 < 255*v < 256`;
the defined cases give `⌊255*v⌋` (nonnegative there). -/
def toByte (v : ℚ) : Option ℕ :=
  if -1 < 255 * v ∧ 255 * v < 256 then some (Int.toNat ⌊255 * v⌋) else none

/-- The byte mapping claimed by the specification: `floor(255·v)` clamped to
`[0, 255]`. -/
def toByteSpec (v : ℚ) : ℕ := min 255 (Int.toNat ⌊255 * v⌋)

/-- `Film::savePPM` data section: the `while (n--)` loop walks the `mSize`
pixels in linear (row-major) order emitting the R, G and B bytes of each
pixel; the alpha component is never read. -/
def Film.ppmData (f : Film) : List (Option ℕ) :=
  (List.range f.size).flatMap fun k =>
    [toByte (f.pixels k).r, toByte (f.pixels k).g, toByte (f.pixels k).b]

/-- `Film::savePPM` header: `os << "P6\n" << mWidth << " " << mHeight << "\n255\n"`. -/
def Film.ppmHeader (f : Film) : String :=
  "P6\n" ++ toString f.width ++ " " ++ toString f.height ++ "\n255\n"

/-- `Vec3R` (double components; modelled over `ℚ`). -/
structure Vec3 where
  x : ℚ
  y : ℚ
  z : ℚ
deriving DecidableEq, Repr

/-- `Vec3::dot`. -/
def Vec3.dot (u v : Vec3) : ℚ := u.x * v.x + u.y * v.y + u.z * v.z

/-- Componentwise negation `-v`. -/
def Vec3.neg (v : Vec3) : Vec3 := ⟨-v.x, -v.y, -v.z⟩

/-- `math::Ray<double>`: eye, direction and parametric interval (the interval
plays no role in the shaders; it is carried as data). -/
structure Ray where
  eye : Vec3
  dir : Vec3
  t0 : ℚ
  t1 : ℚ
deriving DecidableEq, Repr

/-- `MatteShader::operator()`: ignores all inputs, returns the configured
colour. -/
def matteShade (c : RGBA) (_xyz _nml : Vec3) (_ray : Ray) : RGBA := c

/-- `DiffuseShader::operator()`: `mRGBA * math::Abs(normal.dot(ray.dir()))`. -/
def diffuseShade (c : RGBA) (_xyz : Vec3) (nml : Vec3) (ray : Ray) : RGBA :=
  c.smul |nml.dot ray.dir|

/-- `PerspectiveCamera::focalLengthToFieldOfView`:
`360.0 / M_PI * atan(aperture/(2.0*length))`. -/
noncomputable def focalLengthToFieldOfView (length aperture : ℝ) : ℝ :=
  360 / Real.pi * Real.arctan (aperture / (2 * length))

/-- `PerspectiveCamera::fieldOfViewToFocalLength`:
`aperture/(2.0*(tan(fov * M_PI / 360.0)))`. -/
noncomputable def fieldOfViewToFocalLength (fov aperture : ℝ) : ℝ :=
  aperture / (2 * Real.tan (fov * Real.pi / 360))

/-- The capabilities the `LevelSetRayTracer` body consumes: the intersector
(`mInter.intersectsWS`, reporting hit position and normal), the shader
(`(*mShader)(xyz, nml, ray)`), the camera's `getRay(i, j, iOffset, jOffset)`,
the jitter table `mRand` (only indices `0..15` are ever consulted) and
`mSubPixels = pixelSamples - 1`. -/
structure Scene where
  inter : Ray → Option (Vec3 × Vec3)
  shade : Vec3 → Vec3 → Ray → RGBA
  getRay : ℕ → ℕ → ℚ → ℚ → Ray
  rand : ℕ → ℚ
  subPixels : ℕ

/-- One sample:
`mInter.intersectsWS(ray, xyz, nml) ? (*mShader)(xyz, nml, ray) : bg`. -/
def Scene.sample (s : Scene) (ray : Ray) (bg : RGBA) : RGBA :=
  match s.inter ray with
  | some (xyz, nml) => s.shade xyz nml ray
  | none => bg

/-- `frac = 1.0f / (1.0f + mSubPixels)`. -/
def Scene.frac (s : Scene) : ℚ := 1 / (1 + (s.subPixels : ℚ))

/-- The sub-pixel loop
`for (k=0; k<mSubPixels; ++k, n+=2) { ray = getRay(i, j, mRand[n & 15], mRand[n+1 & 15]); c += ...; }`,
threading the accumulator `c` and the jitter counter `n`. -/
def sampleLoop (s : Scene) (bg : RGBA) (i j : ℕ) : ℕ → ℕ → RGBA → RGBA × ℕ
  | n, 0, c => (c, n)
  | n, k + 1, c =>
    let ray := s.getRay i j (s.rand (n &&& 15)) (s.rand ((n + 1) &&& 15))
    sampleLoop s bg i j (n + 2) k (c.addAssign (s.sample ray bg))

/-- The per-pixel body of `LevelSetRayTracer::operator()`: read the current
pixel as the miss colour `bg`, shoot the primary ray with the default
offsets `(0.5, 0.5)`, run the sub-pixel loop, and write `c*frac` back through
the `bg` reference; returns the updated film and jitter counter. -/
def doPixel (s : Scene) (f : Film) (n i j : ℕ) : Film × ℕ :=
  let bg := f.pixel i j
  let c0 := s.sample (s.getRay i j (1/2) (1/2)) bg
  let res := sampleLoop s bg i j n s.subPixels c0
  (f.setPixel i j (res.1.smul s.frac), res.2)

/-- The inner loop `for (i=0, ie=mCamera->width(); i<ie; ++i)` of
`operator()`, counting down the remaining pixels of row `j`. -/
def tracePixels (s : Scene) (j : ℕ) : ℕ → ℕ → Film × ℕ → Film × ℕ
  | _, 0, st => st
  | i, cnt + 1, st => tracePixels s j (i + 1) cnt (doPixel s st.1 st.2 i j)

/-- The outer loop `for (j=range.begin(), n=0, je=range.end(); j<je; ++j)` of
`operator()`, counting down the remaining rows. -/
def traceRows (s : Scene) : ℕ → ℕ → Film × ℕ → Film × ℕ
  | _, 0, st => st
  | j, cnt + 1, st => traceRows s (j + 1) cnt (tracePixels s j 0 st.1.width st)

/-- `operator()(range)` over rows `[a, b)`: the jitter counter `n` starts at
`0` for each invocation of the body. -/
def traceRange (s : Scene) (f : Film) (a b : ℕ) : Film :=
  (traceRows s a (b - a) (f, 0)).1

/-- `trace(false)`: a single sequential invocation of the body over the full
row range `[0, mCamera->height())`. -/
def traceSeq (s : Scene) (f : Film) : Film := traceRange s f 0 f.height

/-- `trace(true)`: `tbb::parallel_for` partitions `[0, height)` into
consecutive sub-ranges (the cut rows listed in `cuts`) and runs `operator()`
once per sub-range; since every sub-range writes a disjoint set of rows and
reads only the pixels it writes, the parallel execution is modelled by the
sequential composition of the per-range invocations. -/
def tracePartition (s : Scene) : Film → ℕ → List ℕ → ℕ → Film
  | f, a, [], b => traceRange s f a b
  | f, a, c :: cs, b => tracePartition s (traceRange s f a c) c cs b

/-- Validity of a cut list for `[a, b)`: ascending and inside the interval. -/
def ChainCuts : ℕ → List ℕ → ℕ → Prop
  | a, [], b => a ≤ b
  | a, c :: cs, b => a ≤ c ∧ ChainCuts c cs b

/-- `LevelSetRayTracer::setPixelSamples(pixelSamples, seed)`:
`mSubPixels = pixelSamples - 1`; the 16-entry jitter table is allocated and
filled from the seeded generator only when `mSubPixels > 0`, otherwise
`mRand = NULL`.  The external `math::Rand01` generator is abstracted as
`gen : seed → index → value`. -/
def setPixelSamples (gen : ℕ → ℕ → ℚ) (pixelSamples seed : ℕ) : ℕ × Option (ℕ → ℚ) :=
  (pixelSamples - 1, if pixelSamples - 1 > 0 then some (gen seed) else none)

/-- The jittered samples drawn by the sub-pixel loop when the counter starts
at `n`: pass `t` uses table entries `(n+2t) & 15` and `(n+2t+1) & 15`. -/
def jitterSamples (s : Scene) (bg : RGBA) (i j n k : ℕ) : List RGBA :=
  (List.range k).map fun t =>
    s.sample (s.getRay i j (s.rand ((n + 2*t) &&& 15)) (s.rand ((n + 2*t + 1) &&& 15))) bg

/-- All samples contributing to pixel `(i, j)`: the primary-ray sample
followed by the `mSubPixels` jittered samples. -/
def pixelSamplesList (s : Scene) (bg : RGBA) (i j n : ℕ) : List RGBA :=
  s.sample (s.getRay i j (1/2) (1/2)) bg :: jitterSamples s bg i j n s.subPixels

/-- The plain componentwise equal-weight average of a list of RGBA samples
(the quantity the specification speaks about). -/
def rgbaAverage (L : List RGBA) : RGBA :=
  ⟨(L.map RGBA.r).sum / L.length, (L.map RGBA.g).sum / L.length,
   (L.map RGBA.b).sum / L.length, (L.map RGBA.a).sum / L.length⟩

/-! ## Basic lemmas -/

theorem toByte_eq_spec (v : ℚ) (h0 : 0 ≤ v) (h1 : v ≤ 1) :
    toByte v = some (toByteSpec v) := by
  have hlow : (-1 : ℚ) < 255 * v := by nlinarith
  have hup : 255 * v ≤ 255 := by nlinarith
  have hup' : 255 * v < 256 := lt_of_le_of_lt hup (by norm_num)
  have hfl : ⌊255 * v⌋ ≤ 255 := by
    have h255 : ((255 : ℤ) : ℚ) = 255 := by norm_num
    calc ⌊255 * v⌋ ≤ ⌊((255 : ℤ) : ℚ)⌋ := Int.floor_le_floor (by rw [h255]; exact hup)
    _ = 255 := Int.floor_intCast 255
  have hnat : Int.toNat ⌊255 * v⌋ ≤ 255 := by omega
  unfold toByte toByteSpec
  rw [if_pos ⟨hlow, hup'⟩, min_eq_right hnat]

theorem toByte_zero : toByte 0 = some 0 := by
  rw [toByte, if_pos]
  · rw [show ⌊(255 : ℚ) * 0⌋ = (0 : ℤ) from by norm_num]
    rfl
  · constructor <;> norm_num

theorem toByte_one : toByte 1 = some 255 := by
  rw [toByte, if_pos]
  · rw [show ⌊(255 : ℚ) * 1⌋ = (255 : ℤ) from by norm_num]
    rfl
  · constructor <;> norm_num

theorem toByte_two : toByte 2 = none := by
  rw [toByte, if_neg]
  norm_num

theorem setPixel_pixel_self (f : Film) (i j : ℕ) (c : RGBA) :
    (f.setPixel i j c).pixel i j = c := by
  simp [Film.setPixel, Film.pixel]

/-! ## C6: over with an opaque bottom -/

/-- C6: compositing with the `over` operator where the bottom (accumulator)
colour is fully opaque (`a = 1`) leaves the bottom unchanged regardless of the
top colour: with `s = top.a·(1−bottom.a)` all four updated components reduce
to the original bottom values. -/
theorem over_opaque_bottom (bottom top : RGBA) (h : bottom.a = 1) :
    bottom.over top = bottom := by
  obtain ⟨r, g, b, a⟩ := bottom
  simp only [RGBA.over] at *
  subst h
  norm_num

/-- Witness for `over_opaque_bottom` at a concrete opaque bottom and a
partially transparent top. -/
theorem over_opaque_bottom_witness :
    (RGBA.mk (1/5) (3/10) (2/5) 1).a = 1 ∧
    RGBA.over ⟨1/5, 3/10, 2/5, 1⟩ ⟨9/10, 1/10, 1/2, 7/10⟩ = ⟨1/5, 3/10, 2/5, 1⟩ :=
  ⟨by decide, over_opaque_bottom ⟨1/5, 3/10, 2/5, 1⟩ ⟨9/10, 1/10, 1/2, 7/10⟩ (by decide)⟩

/-! ## C8: the Diffuse shader is two-sided -/

/-- C8: the Diffuse shader's output is `configuredColor · |normal ⬝ dir|`
(with the alpha of the result fixed at 1 by the scalar product), hence it is
invariant under negating the ray's direction. -/
theorem diffuse_two_sided (c : RGBA) (p nml : Vec3) (ray : Ray) :
    diffuseShade c p nml ray = c.smul |nml.dot ray.dir| ∧
    diffuseShade c p nml { ray with dir := ray.dir.neg } = diffuseShade c p nml ray := by
  refine ⟨rfl, ?_⟩
  unfold diffuseShade
  have hdot : nml.dot ray.dir.neg = -(nml.dot ray.dir) := by
    simp [Vec3.dot, Vec3.neg]; ring
  rw [show ({ ray with dir := ray.dir.neg } : Ray).dir = ray.dir.neg from rfl, hdot, abs_neg]

/-! ## C9: the checkerboard pattern -/

/-- C9: `Film::checkerboard` assigns pixel `(col, row)` the colour decided by
`(col & tileSize) xor (row & tileSize)`; with `tileSize = 32` pixels `(0,0)`
and `(31,31)` receive the same colour while `(32,0)` receives a different
colour than `(0,0)` (whenever the two tile colours differ). -/
theorem checkerboard_pattern (f : Film) (c1 c2 : RGBA) (hW : 32 < f.width) (hH : 31 < f.height) :
    (∀ col row, col < f.width → row < f.height →
      (f.checkerboard c1 c2 32).pixel col row = checkerColor c1 c2 32 col row)
    ∧ (f.checkerboard c1 c2 32).pixel 0 0 = (f.checkerboard c1 c2 32).pixel 31 31
    ∧ (c1 ≠ c2 → (f.checkerboard c1 c2 32).pixel 32 0 ≠ (f.checkerboard c1 c2 32).pixel 0 0) := by
  have hW0 : 0 < f.width := by omega
  have general : ∀ col row, col < f.width → row < f.height →
      (f.checkerboard c1 c2 32).pixel col row = checkerColor c1 c2 32 col row := by
    intro col row hc hr
    have hin : col + row * f.width < f.width * f.height := by
      have h1 : col + row * f.width < (row + 1) * f.width := by
        rw [add_mul, one_mul]
        omega
      have h2 : (row + 1) * f.width ≤ f.height * f.width :=
        Nat.mul_le_mul_right f.width (by omega)
      calc col + row * f.width < (row + 1) * f.width := h1
        _ ≤ f.height * f.width := h2
        _ = f.width * f.height := Nat.mul_comm _ _
    have hmod : (col + row * f.width) % f.width = col := by
      rw [Nat.add_mul_mod_self_right, Nat.mod_eq_of_lt hc]
    have hdiv : (col + row * f.width) / f.width = row := by
      rw [Nat.add_mul_div_right col row hW0, Nat.div_eq_of_lt hc, Nat.zero_add]
    show (Film.checkerboard f c1 c2 32).pixels (col + row * (Film.checkerboard f c1 c2 32).width)
        = checkerColor c1 c2 32 col row
    show (if col + row * f.width < f.width * f.height then
          checkerColor c1 c2 32 ((col + row * f.width) % f.width) ((col + row * f.width) / f.width)
        else f.pixels (col + row * f.width)) = checkerColor c1 c2 32 col row
    rw [if_pos hin, hmod, hdiv]
  refine ⟨general, ?_, ?_⟩
  · rw [general 0 0 (by omega) (by omega), general 31 31 (by omega) (by omega)]
    unfold checkerColor
    rw [if_neg (by decide), if_neg (by decide)]
  · intro hne
    rw [general 32 0 (by omega) (by omega), general 0 0 (by omega) (by omega)]
    unfold checkerColor
    rw [if_pos (by decide), if_neg (by decide)]
    exact hne

/-- Witness for `checkerboard_pattern` on a concrete 33×32 film with two
distinct tile colours. -/
theorem checkerboard_pattern_witness :
    (32 < (Film.create 33 32).width ∧ 31 < (Film.create 33 32).height ∧
      RGBA.gray 1 ≠ RGBA.default0) ∧
    ((Film.create 33 32).checkerboard (RGBA.gray 1) RGBA.default0 32).pixel 32 0 ≠
      ((Film.create 33 32).checkerboard (RGBA.gray 1) RGBA.default0 32).pixel 0 0 :=
  ⟨⟨by decide, by decide, by decide⟩,
    (checkerboard_pattern (Film.create 33 32) (RGBA.gray 1) RGBA.default0
      (by decide) (by decide)).2.2 (by decide)⟩

/-! ## C4: framebuffer construction never fails -/

/-- C4 counterexample: at `width = height = 2^32` the product overflows
`size_t`, yet construction succeeds (the claim demands an `InvalidArgument`
failure) and produces a partially-valid film whose `mSize` wrapped to `0`. -/
theorem film_create_no_validation_cex :
    (Film.tryCreate (2 ^ 32) (2 ^ 32)).isOk = true ∧
    (Film.create (2 ^ 32) (2 ^ 32)).size = 0 ∧
    (Film.tryCreate 0 5).isOk = true := by
  refine ⟨rfl, ?_, rfl⟩
  show (2 ^ 32 * 2 ^ 32) % 2 ^ 64 = 0
  norm_num

/-- C4 amended: `Film` construction performs no validation and never fails;
`mSize` is `width·height` reduced modulo `2^64` (so an overflowing product
silently wraps), zero dimensions are accepted, the background constructor
fills every allocated pixel with the background colour, and the plain
constructor default-constructs every pixel. -/
theorem film_create_total (w h : ℕ) (bg : RGBA) :
    Film.tryCreate w h = Except.ok (Film.create w h)
    ∧ (Film.create w h).size = (w * h) % 2 ^ 64
    ∧ (Film.createBg w h bg).size = (w * h) % 2 ^ 64
    ∧ (∀ k, k < (Film.createBg w h bg).size → (Film.createBg w h bg).pixels k = bg)
    ∧ (∀ k, (Film.create w h).pixels k = RGBA.default0) := by
  refine ⟨rfl, rfl, rfl, fun k hk => ?_, fun k => rfl⟩
  have hk' : k < (Film.create w h).size := hk
  show (if k < (Film.create w h).size then bg else (Film.create w h).pixels k) = bg
  rw [if_pos hk']

/-- Witness for `film_create_total` on a 3×2 film with a grey background. -/
theorem film_create_total_witness :
    (4 < (Film.createBg 3 2 (RGBA.gray 1)).size) ∧
    (Film.createBg 3 2 (RGBA.gray 1)).pixels 4 = RGBA.gray 1 :=
  ⟨by decide, (film_create_total 3 2 (RGBA.gray 1)).2.2.2.1 4 (by decide)⟩

/-! ## C3: PPM export -/

theorem flatMap_triple_length (L : List ℕ) (f g h : ℕ → Option ℕ) :
    (L.flatMap fun k => [f k, g k, h k]).length = 3 * L.length := by
  induction L with
  | nil => simp
  | cons x xs ih => simp [ih]; ring

/-- C3 counterexample: on a 1×1 film whose red channel is `2`, the code's
byte conversion (`static_cast<unsigned char>(255.0f*v)`, no clamping,
undefined outside `[0, 256)`) yields no defined byte, while the claimed
clamped mapping `floor(255·v)` clamped to `[0,255]` would demand `255`. -/
theorem savePPM_no_clamp_cex :
    Film.ppmData ⟨1, 1, 1, fun _ => ⟨2, 0, 0, 1⟩⟩ = [none, some 0, some 0] ∧
    Film.ppmData ⟨1, 1, 1, fun _ => ⟨2, 0, 0, 1⟩⟩ ≠
      [some (toByteSpec 2), some (toByteSpec 0), some (toByteSpec 0)] ∧
    toByteSpec 2 = 255 := by
  have hdata : Film.ppmData ⟨1, 1, 1, fun _ => ⟨2, 0, 0, 1⟩⟩ = [none, some 0, some 0] := by
    show (List.range 1).flatMap _ = _
    rw [show List.range 1 = [0] from rfl]
    show [toByte 2, toByte 0, toByte 0] = [none, some 0, some 0]
    rw [toByte_two, toByte_zero]
  have hspec : toByteSpec 2 = 255 := by
    rw [toByteSpec, show ⌊(255 : ℚ) * 2⌋ = (510 : ℤ) from by norm_num]
    rfl
  refine ⟨hdata, ?_, hspec⟩
  rw [hdata, hspec]
  intro hcontra
  exact absurd (List.head_eq_of_cons_eq hcontra) (by simp)

/-- C3 amended: for a film whose channel values all lie in `[0, 1]` (where the
conversion is defined and clamping is vacuous), `savePPM` writes the ASCII
header `"P6\n<width> <height>\n255\n"` followed by `3·mSize` bytes of
R,G,B triples in row-major order, each channel mapped to `floor(255·v)`
(clamped to `[0,255]`, which changes nothing on this range); alpha is
dropped.  Outside `[0,1]` no clamping is performed (see the counterexample). -/
theorem savePPM_format (f : Film)
    (hv : ∀ k, k < f.size → 0 ≤ (f.pixels k).r ∧ (f.pixels k).r ≤ 1 ∧
          0 ≤ (f.pixels k).g ∧ (f.pixels k).g ≤ 1 ∧
          0 ≤ (f.pixels k).b ∧ (f.pixels k).b ≤ 1) :
    f.ppmHeader = "P6\n" ++ toString f.width ++ " " ++ toString f.height ++ "\n255\n"
    ∧ f.ppmData = (List.range f.size).flatMap (fun k =>
        [some (toByteSpec (f.pixels k).r), some (toByteSpec (f.pixels k).g),
         some (toByteSpec (f.pixels k).b)])
    ∧ f.ppmData.length = 3 * f.size := by
  refine ⟨rfl, ?_, ?_⟩
  · unfold Film.ppmData
    apply List.flatMap_congr
    intro k hk
    rw [List.mem_range] at hk
    obtain ⟨h1, h2, h3, h4, h5, h6⟩ := hv k hk
    rw [toByte_eq_spec _ h1 h2, toByte_eq_spec _ h3 h4, toByte_eq_spec _ h5 h6]
  · unfold Film.ppmData
    rw [flatMap_triple_length, List.length_range]

/-- The 2×1 example film of the specification: a red pixel then a green one. -/
def ppmExampleFilm : Film := ⟨2, 1, 2, fun k => if k = 0 then ⟨1, 0, 0, 1⟩ else ⟨0, 1, 0, 1⟩⟩

/-- Witness for `savePPM_format`: the specification's 2×1 red/green example,
whose exported bytes are `255 0 0 0 255 0` under the header `P6\n2 1\n255\n`. -/
theorem savePPM_format_witness :
    (∀ k, k < ppmExampleFilm.size → 0 ≤ (ppmExampleFilm.pixels k).r ∧
      (ppmExampleFilm.pixels k).r ≤ 1 ∧ 0 ≤ (ppmExampleFilm.pixels k).g ∧
      (ppmExampleFilm.pixels k).g ≤ 1 ∧ 0 ≤ (ppmExampleFilm.pixels k).b ∧
      (ppmExampleFilm.pixels k).b ≤ 1) ∧
    ppmExampleFilm.ppmData = (List.range ppmExampleFilm.size).flatMap (fun k =>
      [some (toByteSpec (ppmExampleFilm.pixels k).r),
       some (toByteSpec (ppmExampleFilm.pixels k).g),
       some (toByteSpec (ppmExampleFilm.pixels k).b)]) ∧
    ppmExampleFilm.ppmData = [some 255, some 0, some 0, some 0, some 255, some 0] ∧
    ppmExampleFilm.ppmHeader = "P6\n2 1\n255\n" := by
  have hv : ∀ k, k < ppmExampleFilm.size → 0 ≤ (ppmExampleFilm.pixels k).r ∧
      (ppmExampleFilm.pixels k).r ≤ 1 ∧ 0 ≤ (ppmExampleFilm.pixels k).g ∧
      (ppmExampleFilm.pixels k).g ≤ 1 ∧ 0 ≤ (ppmExampleFilm.pixels k).b ∧
      (ppmExampleFilm.pixels k).b ≤ 1 := by
    intro k hk
    have hk2 : k < 2 := hk
    interval_cases k <;> refine ⟨?_, ?_, ?_, ?_, ?_, ?_⟩ <;> norm_num [ppmExampleFilm]
  have hbytes : ppmExampleFilm.ppmData =
      [some 255, some 0, some 0, some 0, some 255, some 0] := by
    show (List.range 2).flatMap _ = _
    rw [show List.range 2 = [0, 1] from rfl]
    show [toByte 1, toByte 0, toByte 0, toByte 0, toByte 1, toByte 0] = _
    rw [toByte_one, toByte_zero]
  exact ⟨hv, (savePPM_format ppmExampleFilm hv).2.1, hbytes, rfl⟩

/-! ## C7: focal length and field of view are mutual inverses -/

/-- C7: `focalLengthToFieldOfView` and `fieldOfViewToFocalLength` are mutual
inverses: for every positive focal length and aperture, converting a focal
length through `fov = 360/π · atan(aperture/(2·focalLength))` and back
reproduces the input, and for every field of view in `(0°, 180°)` the
opposite composition reproduces it as well. -/
theorem focal_fov_inverse (length aperture fov : ℝ)
    (hl : 0 < length) (ha : 0 < aperture) (hf0 : 0 < fov) (hf1 : fov < 180) :
    fieldOfViewToFocalLength (focalLengthToFieldOfView length aperture) aperture = length ∧
    focalLengthToFieldOfView (fieldOfViewToFocalLength fov aperture) aperture = fov := by
  have hpi : (0 : ℝ) < Real.pi := Real.pi_pos
  constructor
  · unfold focalLengthToFieldOfView fieldOfViewToFocalLength
    have harg : 360 / Real.pi * Real.arctan (aperture / (2 * length)) * Real.pi / 360
        = Real.arctan (aperture / (2 * length)) := by
      field_simp
    rw [harg, Real.tan_arctan]
    have hlne : length ≠ 0 := ne_of_gt hl
    have hane : aperture ≠ 0 := ne_of_gt ha
    field_simp
    ring
  · unfold focalLengthToFieldOfView fieldOfViewToFocalLength
    have hθpos : 0 < fov * Real.pi / 360 := by positivity
    have hθlt : fov * Real.pi / 360 < Real.pi / 2 := by
      rw [div_lt_iff₀ (by norm_num : (0:ℝ) < 360)]
      calc fov * Real.pi < 180 * Real.pi := by
            exact mul_lt_mul_of_pos_right hf1 hpi
        _ = Real.pi / 2 * 360 := by ring
    have htanpos : 0 < Real.tan (fov * Real.pi / 360) :=
      Real.tan_pos_of_pos_of_lt_pi_div_two hθpos hθlt
    have hinner : aperture / (2 * (aperture / (2 * Real.tan (fov * Real.pi / 360))))
        = Real.tan (fov * Real.pi / 360) := by
      have hane : aperture ≠ 0 := ne_of_gt ha
      have htne : Real.tan (fov * Real.pi / 360) ≠ 0 := ne_of_gt htanpos
      field_simp
      ring
    rw [hinner, Real.arctan_tan (by linarith) hθlt]
    field_simp
    ring

/-- Witness for `focal_fov_inverse` at Houdini's default focal length 50 mm
and aperture 41.2136 mm (and a 90° field of view for the other direction). -/
theorem focal_fov_inverse_witness :
    ((0 : ℝ) < 50 ∧ (0 : ℝ) < 41.2136 ∧ (0 : ℝ) < 90 ∧ (90 : ℝ) < 180) ∧
    fieldOfViewToFocalLength (focalLengthToFieldOfView 50 41.2136) 41.2136 = 50 ∧
    focalLengthToFieldOfView (fieldOfViewToFocalLength 90 41.2136) 41.2136 = 90 :=
  ⟨⟨by norm_num, by norm_num, by norm_num, by norm_num⟩,
   (focal_fov_inverse 50 41.2136 90 (by norm_num) (by norm_num)
      (by norm_num) (by norm_num)).1,
   (focal_fov_inverse 50 41.2136 90 (by norm_num) (by norm_num)
      (by norm_num) (by norm_num)).2⟩

/-! ## Tracer lemmas: the sub-pixel loop -/

theorem land_fifteen (n : ℕ) : n &&& 15 = n % 16 := by
  have h := Nat.and_pow_two_sub_one_eq_mod n 4
  norm_num at h
  exact h

theorem sampleLoop_eq (s : Scene) (bg : RGBA) (i j : ℕ) :
    ∀ (k n : ℕ) (c : RGBA),
      sampleLoop s bg i j n k c = ((jitterSamples s bg i j n k).foldl RGBA.addAssign c, n + 2 * k) := by
  intro k
  induction k with
  | zero => intro n c; simp [sampleLoop, jitterSamples]
  | succ k ih =>
    intro n c
    rw [sampleLoop]
    rw [ih (n + 2)]
    have hlist : jitterSamples s bg i j n (k + 1) =
        s.sample (s.getRay i j (s.rand (n &&& 15)) (s.rand ((n + 1) &&& 15))) bg ::
          jitterSamples s bg i j (n + 2) k := by
      unfold jitterSamples
      rw [List.range_succ_eq_map, List.map_cons, List.map_map]
      congr 1
      apply List.map_congr_left
      intro t _
      simp only [Function.comp_apply, Nat.succ_eq_add_one]
      have e1 : n + 2 * (t + 1) = n + 2 + 2 * t := by ring
      rw [e1]
    rw [hlist]
    rw [List.foldl_cons]
    simp only [Prod.mk.injEq]
    exact ⟨trivial, by ring⟩

theorem foldl_addAssign_spec (L : List RGBA) :
    ∀ c : RGBA, L.foldl RGBA.addAssign c =
      ⟨c.r + (L.map RGBA.r).sum, c.g + (L.map RGBA.g).sum,
       c.b + (L.map RGBA.b).sum, c.a + (L.map RGBA.a).sum⟩ := by
  induction L with
  | nil => intro c; simp
  | cons x xs ih =>
    intro c
    rw [List.foldl_cons, ih]
    simp only [RGBA.addAssign, List.map_cons, List.sum_cons, RGBA.mk.injEq]
    refine ⟨by ring, by ring, by ring, by ring⟩

theorem doPixel_eq (s : Scene) (f : Film) (n i j : ℕ) :
    doPixel s f n i j =
      (f.setPixel i j (((jitterSamples s (f.pixel i j) i j n s.subPixels).foldl RGBA.addAssign
          (s.sample (s.getRay i j (1/2) (1/2)) (f.pixel i j))).smul s.frac),
        n + 2 * s.subPixels) := by
  simp only [doPixel, sampleLoop_eq]

/-- A concrete 1×1 scene for the counterexample against C2 as stated: the
intersector always misses and the pre-seeded background has alpha `3/10`. -/
def c2Scene : Scene :=
  { inter := fun _ => none, shade := fun _ _ _ => RGBA.default0,
    getRay := fun _ _ _ _ => ⟨⟨0, 0, 0⟩, ⟨0, 0, -1⟩, 0, 1⟩,
    rand := fun _ => 0, subPixels := 0 }

/-- A concrete always-hit scene whose shader returns a colour with alpha
`1/2`, used against C5 as stated. -/
def c5Scene : Scene :=
  { inter := fun _ => some (⟨0, 0, 0⟩, ⟨0, 0, 1⟩),
    shade := fun _ _ _ => ⟨1, 1, 1, 1/2⟩,
    getRay := fun _ _ _ _ => ⟨⟨0, 0, 0⟩, ⟨0, 0, -1⟩, 0, 1⟩,
    rand := fun _ => 0, subPixels := 0 }

/-! ## Tracer lemmas: counters, preservation, and mod-16 congruence -/

theorem doPixel_width (s : Scene) (f : Film) (n i j : ℕ) :
    (doPixel s f n i j).1.width = f.width := rfl

theorem doPixel_height (s : Scene) (f : Film) (n i j : ℕ) :
    (doPixel s f n i j).1.height = f.height := rfl

theorem doPixel_size (s : Scene) (f : Film) (n i j : ℕ) :
    (doPixel s f n i j).1.size = f.size := rfl

theorem doPixel_snd (s : Scene) (f : Film) (n i j : ℕ) :
    (doPixel s f n i j).2 = n + 2 * s.subPixels := by
  rw [doPixel_eq]

theorem tracePixels_width (s : Scene) (j cnt : ℕ) : ∀ (i : ℕ) (st : Film × ℕ),
    (tracePixels s j i cnt st).1.width = st.1.width := by
  induction cnt with
  | zero => intro i st; rfl
  | succ cnt ih =>
    intro i st
    show (tracePixels s j (i + 1) cnt (doPixel s st.1 st.2 i j)).1.width = st.1.width
    rw [ih (i + 1) (doPixel s st.1 st.2 i j), doPixel_width]

theorem tracePixels_height (s : Scene) (j cnt : ℕ) : ∀ (i : ℕ) (st : Film × ℕ),
    (tracePixels s j i cnt st).1.height = st.1.height := by
  induction cnt with
  | zero => intro i st; rfl
  | succ cnt ih =>
    intro i st
    show (tracePixels s j (i + 1) cnt (doPixel s st.1 st.2 i j)).1.height = st.1.height
    rw [ih (i + 1) (doPixel s st.1 st.2 i j), doPixel_height]

theorem tracePixels_size (s : Scene) (j cnt : ℕ) : ∀ (i : ℕ) (st : Film × ℕ),
    (tracePixels s j i cnt st).1.size = st.1.size := by
  induction cnt with
  | zero => intro i st; rfl
  | succ cnt ih =>
    intro i st
    show (tracePixels s j (i + 1) cnt (doPixel s st.1 st.2 i j)).1.size = st.1.size
    rw [ih (i + 1) (doPixel s st.1 st.2 i j), doPixel_size]

theorem tracePixels_snd (s : Scene) (j cnt : ℕ) : ∀ (i : ℕ) (st : Film × ℕ),
    (tracePixels s j i cnt st).2 = st.2 + 2 * s.subPixels * cnt := by
  induction cnt with
  | zero =>
    intro i st
    show st.2 = st.2 + 2 * s.subPixels * 0
    ring
  | succ cnt ih =>
    intro i st
    show (tracePixels s j (i + 1) cnt (doPixel s st.1 st.2 i j)).2
        = st.2 + 2 * s.subPixels * (cnt + 1)
    rw [ih (i + 1) (doPixel s st.1 st.2 i j), doPixel_snd]
    ring

theorem traceRows_width (s : Scene) (cnt : ℕ) : ∀ (j : ℕ) (st : Film × ℕ),
    (traceRows s j cnt st).1.width = st.1.width := by
  induction cnt with
  | zero => intro j st; rfl
  | succ cnt ih =>
    intro j st
    show (traceRows s (j + 1) cnt (tracePixels s j 0 st.1.width st)).1.width = st.1.width
    rw [ih (j + 1) (tracePixels s j 0 st.1.width st), tracePixels_width]

theorem traceRows_height (s : Scene) (cnt : ℕ) : ∀ (j : ℕ) (st : Film × ℕ),
    (traceRows s j cnt st).1.height = st.1.height := by
  induction cnt with
  | zero => intro j st; rfl
  | succ cnt ih =>
    intro j st
    show (traceRows s (j + 1) cnt (tracePixels s j 0 st.1.width st)).1.height = st.1.height
    rw [ih (j + 1) (tracePixels s j 0 st.1.width st), tracePixels_height]

theorem traceRows_size (s : Scene) (cnt : ℕ) : ∀ (j : ℕ) (st : Film × ℕ),
    (traceRows s j cnt st).1.size = st.1.size := by
  induction cnt with
  | zero => intro j st; rfl
  | succ cnt ih =>
    intro j st
    show (traceRows s (j + 1) cnt (tracePixels s j 0 st.1.width st)).1.size = st.1.size
    rw [ih (j + 1) (tracePixels s j 0 st.1.width st), tracePixels_size]

theorem traceRows_snd (s : Scene) (cnt : ℕ) : ∀ (j : ℕ) (st : Film × ℕ),
    (traceRows s j cnt st).2 = st.2 + 2 * s.subPixels * st.1.width * cnt := by
  induction cnt with
  | zero =>
    intro j st
    show st.2 = st.2 + 2 * s.subPixels * st.1.width * 0
    ring
  | succ cnt ih =>
    intro j st
    show (traceRows s (j + 1) cnt (tracePixels s j 0 st.1.width st)).2
        = st.2 + 2 * s.subPixels * st.1.width * (cnt + 1)
    rw [ih (j + 1) (tracePixels s j 0 st.1.width st), tracePixels_width,
      tracePixels_snd]
    ring

theorem mod16_add (a b m : ℕ) (h : a % 16 = b % 16) : (a + m) % 16 = (b + m) % 16 := by
  omega

theorem sampleLoop_fst_mod (s : Scene) (bg : RGBA) (i j k : ℕ) :
    ∀ (n n' : ℕ) (c : RGBA), n % 16 = n' % 16 →
      (sampleLoop s bg i j n k c).1 = (sampleLoop s bg i j n' k c).1 := by
  induction k with
  | zero => intro n n' c _; rfl
  | succ k ih =>
    intro n n' c h
    show (sampleLoop s bg i j (n + 2) k
        (c.addAssign (s.sample (s.getRay i j (s.rand (n &&& 15)) (s.rand ((n + 1) &&& 15))) bg))).1
      = (sampleLoop s bg i j (n' + 2) k
        (c.addAssign (s.sample (s.getRay i j (s.rand (n' &&& 15)) (s.rand ((n' + 1) &&& 15))) bg))).1
    have h15 : n &&& 15 = n' &&& 15 := by rw [land_fifteen, land_fifteen, h]
    have h15' : (n + 1) &&& 15 = (n' + 1) &&& 15 := by
      rw [land_fifteen, land_fifteen]
      omega
    rw [h15, h15']
    exact ih (n + 2) (n' + 2) _ (by omega)

theorem doPixel_fst_mod (s : Scene) (f : Film) (i j : ℕ) (n n' : ℕ)
    (h : n % 16 = n' % 16) :
    (doPixel s f n i j).1 = (doPixel s f n' i j).1 := by
  show f.setPixel i j ((sampleLoop s (f.pixel i j) i j n s.subPixels
      (s.sample (s.getRay i j (1/2) (1/2)) (f.pixel i j))).1.smul s.frac)
    = f.setPixel i j ((sampleLoop s (f.pixel i j) i j n' s.subPixels
      (s.sample (s.getRay i j (1/2) (1/2)) (f.pixel i j))).1.smul s.frac)
  rw [sampleLoop_fst_mod s (f.pixel i j) i j s.subPixels n n' _ h]

theorem tracePixels_fst_mod (s : Scene) (j cnt : ℕ) : ∀ (i : ℕ) (f : Film) (n n' : ℕ),
    n % 16 = n' % 16 →
    (tracePixels s j i cnt (f, n)).1 = (tracePixels s j i cnt (f, n')).1 := by
  induction cnt with
  | zero => intro i f n n' _; rfl
  | succ cnt ih =>
    intro i f n n' h
    show (tracePixels s j (i + 1) cnt (doPixel s f n i j)).1
        = (tracePixels s j (i + 1) cnt (doPixel s f n' i j)).1
    have e1 : doPixel s f n i j = ((doPixel s f n' i j).1, n + 2 * s.subPixels) :=
      Prod.ext (doPixel_fst_mod s f i j n n' h) (doPixel_snd s f n i j)
    have e2 : doPixel s f n' i j = ((doPixel s f n' i j).1, n' + 2 * s.subPixels) :=
      Prod.ext rfl (doPixel_snd s f n' i j)
    rw [e1, e2]
    exact ih (i + 1) (doPixel s f n' i j).1 (n + 2 * s.subPixels) (n' + 2 * s.subPixels)
      (mod16_add n n' (2 * s.subPixels) h)

theorem traceRows_fst_mod (s : Scene) (cnt : ℕ) : ∀ (j : ℕ) (f : Film) (n n' : ℕ),
    n % 16 = n' % 16 →
    (traceRows s j cnt (f, n)).1 = (traceRows s j cnt (f, n')).1 := by
  induction cnt with
  | zero => intro j f n n' _; rfl
  | succ cnt ih =>
    intro j f n n' h
    show (traceRows s (j + 1) cnt (tracePixels s j 0 f.width (f, n))).1
        = (traceRows s (j + 1) cnt (tracePixels s j 0 f.width (f, n'))).1
    have e1 : tracePixels s j 0 f.width (f, n)
        = ((tracePixels s j 0 f.width (f, n')).1, n + 2 * s.subPixels * f.width) := by
      refine Prod.ext ?_ ?_
      · exact tracePixels_fst_mod s j f.width 0 f n n' h
      · rw [tracePixels_snd]
    have e2 : tracePixels s j 0 f.width (f, n')
        = ((tracePixels s j 0 f.width (f, n')).1, n' + 2 * s.subPixels * f.width) := by
      refine Prod.ext rfl ?_
      rw [tracePixels_snd]
    rw [e1, e2]
    exact ih (j + 1) (tracePixels s j 0 f.width (f, n')).1 _ _
      (mod16_add n n' (2 * s.subPixels * f.width) h)

/-! ## Tracer lemmas: composing row ranges -/

theorem traceRows_add (s : Scene) (m : ℕ) : ∀ (k j : ℕ) (st : Film × ℕ),
    traceRows s j (m + k) st = traceRows s (j + m) k (traceRows s j m st) := by
  induction m with
  | zero =>
    intro k j st
    rw [Nat.zero_add]
    rfl
  | succ m ih =>
    intro k j st
    rw [show m + 1 + k = (m + k) + 1 from by omega]
    show traceRows s (j + 1) (m + k) (tracePixels s j 0 st.1.width st)
        = traceRows s (j + (m + 1)) k (traceRows s j (m + 1) st)
    rw [ih k (j + 1) (tracePixels s j 0 st.1.width st)]
    rw [show j + (m + 1) = j + 1 + m from by omega]
    rfl

theorem traceRange_width (s : Scene) (f : Film) (a b : ℕ) :
    (traceRange s f a b).width = f.width := by
  show (traceRows s a (b - a) (f, 0)).1.width = f.width
  rw [traceRows_width]

theorem traceRange_height (s : Scene) (f : Film) (a b : ℕ) :
    (traceRange s f a b).height = f.height := by
  show (traceRows s a (b - a) (f, 0)).1.height = f.height
  rw [traceRows_height]

theorem traceRange_size (s : Scene) (f : Film) (a b : ℕ) :
    (traceRange s f a b).size = f.size := by
  show (traceRows s a (b - a) (f, 0)).1.size = f.size
  rw [traceRows_size]

theorem chainCuts_le (cuts : List ℕ) : ∀ (a b : ℕ), ChainCuts a cuts b → a ≤ b := by
  induction cuts with
  | nil => intro a b h; exact h
  | cons c cs ih => intro a b h; exact le_trans h.1 (ih c b h.2)

theorem traceRange_merge (s : Scene) (f : Film) (a b c : ℕ)
    (hdiv : 2 * s.subPixels * f.width % 16 = 0) (hab : a ≤ b) (hbc : b ≤ c) :
    traceRange s (traceRange s f a b) b c = traceRange s f a c := by
  show (traceRows s b (c - b) ((traceRows s a (b - a) (f, 0)).1, 0)).1
      = (traceRows s a (c - a) (f, 0)).1
  rw [show c - a = (b - a) + (c - b) from by omega,
    traceRows_add s (b - a) (c - b) a (f, 0),
    show a + (b - a) = b from by omega]
  have hsnd : (traceRows s a (b - a) (f, 0)).2 = 2 * s.subPixels * f.width * (b - a) := by
    rw [traceRows_snd]
    simp
  have hmod : 0 % 16 = (traceRows s a (b - a) (f, 0)).2 % 16 := by
    rw [hsnd, Nat.mul_mod, hdiv]
    simp
  calc (traceRows s b (c - b) ((traceRows s a (b - a) (f, 0)).1, 0)).1
      = (traceRows s b (c - b) ((traceRows s a (b - a) (f, 0)).1,
          (traceRows s a (b - a) (f, 0)).2)).1 :=
        traceRows_fst_mod s (c - b) b (traceRows s a (b - a) (f, 0)).1 0
          (traceRows s a (b - a) (f, 0)).2 hmod
    _ = (traceRows s b (c - b) (traceRows s a (b - a) (f, 0))).1 := rfl

theorem tracePartition_eq (s : Scene) (cuts : List ℕ) : ∀ (f : Film) (a b : ℕ),
    2 * s.subPixels * f.width % 16 = 0 → ChainCuts a cuts b →
    tracePartition s f a cuts b = traceRange s f a b := by
  induction cuts with
  | nil => intro f a b _ _; rfl
  | cons c cs ih =>
    intro f a b hdiv hchain
    show tracePartition s (traceRange s f a c) c cs b = traceRange s f a b
    have hdiv' : 2 * s.subPixels * (traceRange s f a c).width % 16 = 0 := by
      rw [traceRange_width]
      exact hdiv
    rw [ih (traceRange s f a c) c b hdiv' hchain.2]
    exact traceRange_merge s f a c b hdiv hchain.1 (chainCuts_le cs c b hchain.2)

/-! ## Tracer lemmas: write locality and per-pixel characterization -/

/-- The value `operator()` writes at pixel `(i, j)` when the jitter counter
holds `n` on arrival: `c*frac` for the accumulated sample sum `c`. -/
def writtenValue (s : Scene) (bg : RGBA) (i j n : ℕ) : RGBA :=
  ((sampleLoop s bg i j n s.subPixels (s.sample (s.getRay i j (1/2) (1/2)) bg)).1).smul s.frac

theorem doPixel_writes (s : Scene) (f : Film) (n i j : ℕ) :
    (doPixel s f n i j).1.pixels (i + j * f.width) = writtenValue s (f.pixel i j) i j n := by
  show (f.setPixel i j _).pixels (i + j * f.width) = _
  simp [Film.setPixel, writtenValue]

theorem setPixel_pixels_ne (f : Film) (i j : ℕ) (c : RGBA) (k : ℕ)
    (h : k ≠ i + j * f.width) : (f.setPixel i j c).pixels k = f.pixels k := by
  simp [Film.setPixel, h]

theorem doPixel_pixels_ne (s : Scene) (f : Film) (n i j k : ℕ)
    (h : k ≠ i + j * f.width) : (doPixel s f n i j).1.pixels k = f.pixels k := by
  show (f.setPixel i j _).pixels k = f.pixels k
  exact setPixel_pixels_ne f i j _ k h

theorem tracePixels_pixels_outside (s : Scene) (j cnt : ℕ) :
    ∀ (i : ℕ) (st : Film × ℕ) (k : ℕ),
      (∀ i', i ≤ i' → i' < i + cnt → k ≠ i' + j * st.1.width) →
      (tracePixels s j i cnt st).1.pixels k = st.1.pixels k := by
  induction cnt with
  | zero => intro i st k _; rfl
  | succ cnt ih =>
    intro i st k hk
    show (tracePixels s j (i + 1) cnt (doPixel s st.1 st.2 i j)).1.pixels k = st.1.pixels k
    have hfr : ∀ i', i + 1 ≤ i' → i' < i + 1 + cnt →
        k ≠ i' + j * (doPixel s st.1 st.2 i j).1.width := by
      intro i' h1 h2
      rw [doPixel_width]
      exact hk i' (by omega) (by omega)
    rw [ih (i + 1) (doPixel s st.1 st.2 i j) k hfr]
    exact doPixel_pixels_ne s st.1 st.2 i j k (hk i le_rfl (by omega))

theorem traceRows_pixels_outside (s : Scene) (cnt : ℕ) :
    ∀ (j : ℕ) (st : Film × ℕ) (k : ℕ),
      (∀ j', j ≤ j' → j' < j + cnt → ∀ i', i' < st.1.width → k ≠ i' + j' * st.1.width) →
      (traceRows s j cnt st).1.pixels k = st.1.pixels k := by
  induction cnt with
  | zero => intro j st k _; rfl
  | succ cnt ih =>
    intro j st k hk
    show (traceRows s (j + 1) cnt (tracePixels s j 0 st.1.width st)).1.pixels k = st.1.pixels k
    have hfr : ∀ j', j + 1 ≤ j' → j' < j + 1 + cnt →
        ∀ i', i' < (tracePixels s j 0 st.1.width st).1.width →
        k ≠ i' + j' * (tracePixels s j 0 st.1.width st).1.width := by
      intro j' h1 h2 i' hi'
      rw [tracePixels_width] at hi' ⊢
      exact hk j' (by omega) (by omega) i' hi'
    rw [ih (j + 1) (tracePixels s j 0 st.1.width st) k hfr]
    refine tracePixels_pixels_outside s j st.1.width 0 st k ?_
    intro i' h1 h2
    exact hk j le_rfl (by omega) i' (by omega)

theorem traceRange_pixels_outside (s : Scene) (f : Film) (a b k : ℕ)
    (h : k < a * f.width ∨ b * f.width ≤ k) :
    (traceRange s f a b).pixels k = f.pixels k := by
  show (traceRows s a (b - a) (f, 0)).1.pixels k = f.pixels k
  refine traceRows_pixels_outside s (b - a) a (f, 0) k ?_
  intro j' h1 h2 i' hi' heq
  rcases h with h | h
  · have h1' : a * f.width ≤ j' * f.width := Nat.mul_le_mul_right f.width h1
    have hk1 : j' * f.width ≤ k := heq ▸ Nat.le_add_left _ _
    exact absurd (lt_of_le_of_lt (le_trans h1' hk1) h) (lt_irrefl _)
  · have hk2 : k < (j' + 1) * f.width := by
      rw [heq, Nat.succ_mul, Nat.add_comm i' (j' * f.width)]
      exact Nat.add_lt_add_left hi' _
    have hj1 : j' + 1 ≤ b := by omega
    have hble : (j' + 1) * f.width ≤ b * f.width := Nat.mul_le_mul_right f.width hj1
    exact absurd (lt_of_lt_of_le hk2 (le_trans hble h)) (lt_irrefl _)

theorem tracePixels_pixel_at (s : Scene) (j cnt : ℕ) : ∀ (i : ℕ) (f : Film) (n i' : ℕ),
    i ≤ i' → i' < i + cnt →
    (tracePixels s j i cnt (f, n)).1.pixels (i' + j * f.width)
      = writtenValue s (f.pixels (i' + j * f.width)) i' j
          (n + 2 * s.subPixels * (i' - i)) := by
  induction cnt with
  | zero => intro i f n i' h1 h2; omega
  | succ cnt ih =>
    intro i f n i' h1 h2
    show (tracePixels s j (i + 1) cnt (doPixel s f n i j)).1.pixels (i' + j * f.width) = _
    by_cases hii : i' = i
    · rw [hii]
      have hfr : ∀ i'', i + 1 ≤ i'' → i'' < i + 1 + cnt →
          i + j * f.width ≠ i'' + j * (doPixel s f n i j).1.width := by
        intro i'' hq1 hq2
        rw [doPixel_width]
        intro heq
        exact absurd (Nat.add_right_cancel heq) (by omega)
      rw [tracePixels_pixels_outside s j cnt (i + 1) (doPixel s f n i j) _ hfr]
      rw [show (doPixel s f n i j).1.pixels (i + j * f.width)
          = writtenValue s (f.pixel i j) i j n from doPixel_writes s f n i j]
      rw [Film.pixel]
      congr 1
      simp [hii]
    · have h1' : i + 1 ≤ i' := by omega
      have e1 : doPixel s f n i j = ((doPixel s f n i j).1, n + 2 * s.subPixels) :=
        Prod.ext rfl (doPixel_snd s f n i j)
      rw [e1]
      have hw : (doPixel s f n i j).1.width = f.width := doPixel_width s f n i j
      have hstep := ih (i + 1) (doPixel s f n i j).1 (n + 2 * s.subPixels) i' h1' (by omega)
      rw [hw] at hstep
      rw [hstep]
      rw [doPixel_pixels_ne s f n i j _
        (fun heq => hii (Nat.add_right_cancel heq))]
      have hcnt : n + 2 * s.subPixels + 2 * s.subPixels * (i' - (i + 1))
          = n + 2 * s.subPixels * (i' - i) := by
        rw [show i' - i = (i' - (i + 1)) + 1 from by omega, Nat.mul_add, Nat.mul_one]
        ring
      rw [hcnt]

theorem traceRows_pixel_at (s : Scene) (cnt : ℕ) : ∀ (j : ℕ) (f : Film) (n : ℕ) (i' j' : ℕ),
    i' < f.width → j ≤ j' → j' < j + cnt →
    (traceRows s j cnt (f, n)).1.pixels (i' + j' * f.width)
      = writtenValue s (f.pixels (i' + j' * f.width)) i' j'
          (n + 2 * s.subPixels * f.width * (j' - j) + 2 * s.subPixels * i') := by
  induction cnt with
  | zero => intro j f n i' j' _ h1 h2; omega
  | succ cnt ih =>
    intro j f n i' j' hi' h1 h2
    show (traceRows s (j + 1) cnt (tracePixels s j 0 f.width (f, n))).1.pixels
        (i' + j' * f.width) = _
    by_cases hjj : j' = j
    · rw [hjj]
      have e1 : tracePixels s j 0 f.width (f, n)
          = ((tracePixels s j 0 f.width (f, n)).1, n + 2 * s.subPixels * f.width) := by
        refine Prod.ext rfl ?_
        rw [tracePixels_snd]
      rw [e1]
      have hfr : ∀ j'', j + 1 ≤ j'' → j'' < j + 1 + cnt →
          ∀ i'', i'' < (tracePixels s j 0 f.width (f, n)).1.width →
          i' + j * f.width ≠ i'' + j'' * (tracePixels s j 0 f.width (f, n)).1.width := by
        intro j'' hj1 hj2 i'' hi''
        rw [tracePixels_width] at hi'' ⊢
        intro heq
        have hlt : i' + j * f.width < (j + 1) * f.width := by
          rw [Nat.succ_mul, Nat.add_comm i' (j * f.width)]
          exact Nat.add_lt_add_left hi' _
        have hle : (j + 1) * f.width ≤ j'' * f.width := Nat.mul_le_mul_right f.width hj1
        have hle2 : j'' * f.width ≤ i'' + j'' * f.width := Nat.le_add_left _ _
        exact absurd (lt_of_le_of_lt
          (le_trans hle (le_trans hle2 (le_of_eq heq.symm))) hlt) (lt_irrefl _)
      rw [traceRows_pixels_outside s cnt (j + 1)
        ((tracePixels s j 0 f.width (f, n)).1, n + 2 * s.subPixels * f.width) _ hfr]
      rw [tracePixels_pixel_at s j f.width 0 f n i' (Nat.zero_le _) (by omega)]
      congr 1
      simp
    · have h1' : j + 1 ≤ j' := by omega
      have e1 : tracePixels s j 0 f.width (f, n)
          = ((tracePixels s j 0 f.width (f, n)).1, n + 2 * s.subPixels * f.width) := by
        refine Prod.ext rfl ?_
        rw [tracePixels_snd]
      rw [e1]
      have hw : (tracePixels s j 0 f.width (f, n)).1.width = f.width :=
        tracePixels_width s j f.width 0 (f, n)
      have hstep := ih (j + 1) (tracePixels s j 0 f.width (f, n)).1
        (n + 2 * s.subPixels * f.width) i' j' (by rw [hw]; exact hi') h1' (by omega)
      rw [hw] at hstep
      rw [hstep]
      have hpix : (tracePixels s j 0 f.width (f, n)).1.pixels (i' + j' * f.width)
          = f.pixels (i' + j' * f.width) := by
        refine tracePixels_pixels_outside s j f.width 0 (f, n) _ ?_
        intro i'' hq1 hq2 heq
        have hlt : i'' + j * f.width < (j + 1) * f.width := by
          rw [Nat.succ_mul, Nat.add_comm i'' (j * f.width)]
          exact Nat.add_lt_add_left (by omega) _
        rw [← heq] at hlt
        have hle : (j + 1) * f.width ≤ j' * f.width := Nat.mul_le_mul_right f.width h1'
        have hle2 : j' * f.width ≤ i' + j' * f.width := Nat.le_add_left _ _
        exact absurd (lt_of_le_of_lt (le_trans hle hle2) hlt) (lt_irrefl _)
      rw [hpix]
      have hcnt : n + 2 * s.subPixels * f.width + 2 * s.subPixels * f.width * (j' - (j + 1))
            + 2 * s.subPixels * i'
          = n + 2 * s.subPixels * f.width * (j' - j) + 2 * s.subPixels * i' := by
        rw [show j' - j = (j' - (j + 1)) + 1 from by omega, Nat.mul_add, Nat.mul_one]
        ring
      rw [hcnt]

theorem traceRange_pixel_at (s : Scene) (f : Film) (a b i j : ℕ)
    (hi : i < f.width) (hja : a ≤ j) (hjb : j < b) :
    (traceRange s f a b).pixel i j
      = writtenValue s (f.pixel i j) i j
          (2 * s.subPixels * f.width * (j - a) + 2 * s.subPixels * i) := by
  show (traceRows s a (b - a) (f, 0)).1.pixels
      (i + j * (traceRows s a (b - a) (f, 0)).1.width) = _
  rw [traceRows_width]
  rw [traceRows_pixel_at s (b - a) a f 0 i j hi hja (by omega)]
  rw [Film.pixel]
  congr 1
  omega

theorem Film.ext' (f g : Film) (h1 : f.width = g.width) (h2 : f.height = g.height)
    (h3 : f.size = g.size) (h4 : ∀ k, f.pixels k = g.pixels k) : f = g := by
  obtain ⟨w1, ht1, s1, p1⟩ := f
  obtain ⟨w2, ht2, s2, p2⟩ := g
  have e1 : w1 = w2 := h1
  have e2 : ht1 = ht2 := h2
  have e3 : s1 = s2 := h3
  have e4 : p1 = p2 := funext h4
  subst e1; subst e2; subst e3; subst e4
  rfl

theorem traceRange_pixel_at_idx (s : Scene) (f : Film) (a b k : ℕ)
    (hWpos : 0 < f.width) (hka : a * f.width ≤ k) (hkb : k < b * f.width) :
    (traceRange s f a b).pixels k
      = writtenValue s (f.pixels k) (k % f.width) (k / f.width)
          (2 * s.subPixels * f.width * (k / f.width - a)
            + 2 * s.subPixels * (k % f.width)) := by
  have hi : k % f.width < f.width := Nat.mod_lt k hWpos
  have hja : a ≤ k / f.width := (Nat.le_div_iff_mul_le hWpos).mpr hka
  have hjb : k / f.width < b := (Nat.div_lt_iff_lt_mul hWpos).mpr hkb
  have hdecomp : k % f.width + k / f.width * f.width = k := Nat.mod_add_div' k f.width
  have hmain := traceRange_pixel_at s f a b (k % f.width) (k / f.width) hi hja hjb
  rw [Film.pixel, Film.pixel, traceRange_width] at hmain
  rw [hdecomp] at hmain
  exact hmain

theorem traceRange_swap (s : Scene) (g : Film) (a b c d : ℕ) (hbc : b ≤ c) :
    traceRange s (traceRange s g a b) c d = traceRange s (traceRange s g c d) a b := by
  have w1 : (traceRange s g a b).width = g.width := traceRange_width s g a b
  have w2 : (traceRange s g c d).width = g.width := traceRange_width s g c d
  apply Film.ext'
  · rw [traceRange_width, w1, traceRange_width, w2]
  · rw [traceRange_height, traceRange_height, traceRange_height, traceRange_height]
  · rw [traceRange_size, traceRange_size, traceRange_size, traceRange_size]
  intro k
  rcases Nat.eq_zero_or_pos g.width with hw0 | hWpos
  · have fL1 : (traceRange s (traceRange s g a b) c d).pixels k
        = (traceRange s g a b).pixels k := by
      apply traceRange_pixels_outside
      right
      rw [w1, hw0, Nat.mul_zero]
      exact Nat.zero_le k
    have fL2 : (traceRange s g a b).pixels k = g.pixels k := by
      apply traceRange_pixels_outside
      right
      rw [hw0, Nat.mul_zero]
      exact Nat.zero_le k
    have fR1 : (traceRange s (traceRange s g c d) a b).pixels k
        = (traceRange s g c d).pixels k := by
      apply traceRange_pixels_outside
      right
      rw [w2, hw0, Nat.mul_zero]
      exact Nat.zero_le k
    have fR2 : (traceRange s g c d).pixels k = g.pixels k := by
      apply traceRange_pixels_outside
      right
      rw [hw0, Nat.mul_zero]
      exact Nat.zero_le k
    rw [fL1, fL2, fR1, fR2]
  by_cases hk1 : a * g.width ≤ k ∧ k < b * g.width
  · obtain ⟨hka, hkb⟩ := hk1
    have hkc : k < c * g.width := lt_of_lt_of_le hkb (Nat.mul_le_mul_right g.width hbc)
    have hL : (traceRange s (traceRange s g a b) c d).pixels k
        = (traceRange s g a b).pixels k := by
      apply traceRange_pixels_outside
      left
      rw [w1]
      exact hkc
    have hLv := traceRange_pixel_at_idx s g a b k hWpos hka hkb
    have hRv : (traceRange s (traceRange s g c d) a b).pixels k
        = writtenValue s ((traceRange s g c d).pixels k) (k % g.width) (k / g.width)
            (2 * s.subPixels * g.width * (k / g.width - a)
              + 2 * s.subPixels * (k % g.width)) := by
      have := traceRange_pixel_at_idx s (traceRange s g c d) a b k
        (by rw [w2]; exact hWpos) (by rw [w2]; exact hka) (by rw [w2]; exact hkb)
      rw [w2] at this
      exact this
    have hRin : (traceRange s g c d).pixels k = g.pixels k := by
      apply traceRange_pixels_outside
      left
      exact hkc
    rw [hL, hLv, hRv, hRin]
  by_cases hk2 : c * g.width ≤ k ∧ k < d * g.width
  · obtain ⟨hkc, hkd⟩ := hk2
    have hkbw : b * g.width ≤ k := le_trans (Nat.mul_le_mul_right g.width hbc) hkc
    have hLv : (traceRange s (traceRange s g a b) c d).pixels k
        = writtenValue s ((traceRange s g a b).pixels k) (k % g.width) (k / g.width)
            (2 * s.subPixels * g.width * (k / g.width - c)
              + 2 * s.subPixels * (k % g.width)) := by
      have := traceRange_pixel_at_idx s (traceRange s g a b) c d k
        (by rw [w1]; exact hWpos) (by rw [w1]; exact hkc) (by rw [w1]; exact hkd)
      rw [w1] at this
      exact this
    have hLin : (traceRange s g a b).pixels k = g.pixels k := by
      apply traceRange_pixels_outside
      right
      exact hkbw
    have hR : (traceRange s (traceRange s g c d) a b).pixels k
        = (traceRange s g c d).pixels k := by
      apply traceRange_pixels_outside
      right
      rw [w2]
      exact hkbw
    have hRv := traceRange_pixel_at_idx s g c d k hWpos hkc hkd
    rw [hLv, hLin, hR, hRv]
  · have hout1 : k < a * g.width ∨ b * g.width ≤ k := by
      rcases Nat.lt_or_ge k (a * g.width) with h | h
      · exact Or.inl h
      · right
        rcases Nat.lt_or_ge k (b * g.width) with h' | h'
        · exact absurd ⟨h, h'⟩ hk1
        · exact h'
    have hout2 : k < c * g.width ∨ d * g.width ≤ k := by
      rcases Nat.lt_or_ge k (c * g.width) with h | h
      · exact Or.inl h
      · right
        rcases Nat.lt_or_ge k (d * g.width) with h' | h'
        · exact absurd ⟨h, h'⟩ hk2
        · exact h'
    have fL1 : (traceRange s (traceRange s g a b) c d).pixels k
        = (traceRange s g a b).pixels k := by
      apply traceRange_pixels_outside
      rw [w1]
      exact hout2
    have fL2 : (traceRange s g a b).pixels k = g.pixels k :=
      traceRange_pixels_outside s g a b k hout1
    have fR1 : (traceRange s (traceRange s g c d) a b).pixels k
        = (traceRange s g c d).pixels k := by
      apply traceRange_pixels_outside
      rw [w2]
      exact hout1
    have fR2 : (traceRange s g c d).pixels k = g.pixels k :=
      traceRange_pixels_outside s g c d k hout2
    rw [fL1, fL2, fR1, fR2]

/-! ## C1: threaded versus sequential tracing -/

/-- C1 amended: threaded and unthreaded traces coincide for every partition
of the row range into consecutive sub-ranges — and row-disjoint sub-ranges
may even be executed in either order — **provided** `16` divides
`2·(pixelSamples−1)·width` (in particular always when `pixelSamples = 1`).
The proviso is forced by the code: each `operator()` invocation restarts the
jitter counter `n` at `0`, so a sub-range starting at row `r` uses jitter
indices shifted by `2·(pixelSamples−1)·width·r mod 16` compared to the
sequential pass, and for other sample/width combinations the images differ
(see the counterexample). -/
theorem threaded_trace_deterministic (s : Scene) (f : Film) (cuts : List ℕ)
    (hdiv : 2 * s.subPixels * f.width % 16 = 0)
    (hchain : ChainCuts 0 cuts f.height) :
    tracePartition s f 0 cuts f.height = traceSeq s f ∧
    (∀ (g : Film) (a b c d : ℕ), b ≤ c →
      traceRange s (traceRange s g a b) c d = traceRange s (traceRange s g c d) a b) :=
  ⟨tracePartition_eq s cuts f 0 f.height hdiv hchain,
    fun g a b c d h => traceRange_swap s g a b c d h⟩

/-- A concrete scene whose pixel colour depends on the sub-pixel jitter
offsets: the intersector reports the ray direction as the hit normal and the
shader displays the normal. -/
def c1Scene : Scene :=
  { inter := fun r => some (r.dir, r.dir),
    shade := fun _ nml _ => ⟨nml.x, nml.y, nml.z, 1⟩,
    getRay := fun _ _ a b => ⟨⟨0, 0, 0⟩, ⟨a, b, -1⟩, 0, 1⟩,
    rand := fun k => match k with
      | 0 => 0
      | 1 => 1/16
      | 2 => 1/8
      | 3 => 3/16
      | _ => 0,
    subPixels := 1 }

/-- C1 counterexample: on a 1×2 film with `pixelSamples = 2`, splitting the
two rows into two ranges (cut at row 1) restarts the jitter counter for row 1,
so its sub-pixel ray uses table entries 0,1 instead of 2,3 and the resulting
pixel differs from the sequential trace. -/
theorem threaded_trace_cex :
    (tracePartition c1Scene (Film.create 1 2) 0 [1] 2).pixel 0 1 ≠
      (traceSeq c1Scene (Film.create 1 2)).pixel 0 1 := by
  with_unfolding_all decide

/-- A jitter-dependent scene satisfying the divisibility condition:
`2·subPixels·width = 2·1·8 = 16`. -/
def c1WScene : Scene :=
  { inter := fun r => some (r.dir, r.dir),
    shade := fun _ nml _ => ⟨nml.x, nml.y, nml.z, 1⟩,
    getRay := fun _ _ a b => ⟨⟨0, 0, 0⟩, ⟨a, b, -1⟩, 0, 1⟩,
    rand := fun k => match k with
      | 0 => 0
      | 1 => 1/16
      | _ => 0,
    subPixels := 1 }

/-- Witness for `threaded_trace_deterministic` on an 8×2 film with
`pixelSamples = 2` cut at row 1. -/
theorem threaded_trace_deterministic_witness :
    (2 * c1WScene.subPixels * (Film.create 8 2).width % 16 = 0 ∧
      ChainCuts 0 [1] (Film.create 8 2).height) ∧
    tracePartition c1WScene (Film.create 8 2) 0 [1] (Film.create 8 2).height
      = traceSeq c1WScene (Film.create 8 2) :=
  ⟨⟨by decide, ⟨(by decide : 0 ≤ 1), (by decide : 1 ≤ 2)⟩⟩,
    (threaded_trace_deterministic c1WScene (Film.create 8 2) [1] (by decide)
      ⟨(by decide : 0 ≤ 1), (by decide : 1 ≤ 2)⟩).1⟩

/-! ## The written value as a sample average -/

theorem writtenValue_avg (s : Scene) (bg : RGBA) (i j n : ℕ) :
    writtenValue s bg i j n =
      ⟨((pixelSamplesList s bg i j n).map RGBA.r).sum / (1 + (s.subPixels : ℚ)),
       ((pixelSamplesList s bg i j n).map RGBA.g).sum / (1 + (s.subPixels : ℚ)),
       ((pixelSamplesList s bg i j n).map RGBA.b).sum / (1 + (s.subPixels : ℚ)), 1⟩ := by
  unfold writtenValue
  rw [sampleLoop_eq]
  show ((jitterSamples s bg i j n s.subPixels).foldl RGBA.addAssign
      (s.sample (s.getRay i j (1/2) (1/2)) bg)).smul s.frac = _
  rw [foldl_addAssign_spec]
  unfold pixelSamplesList
  simp only [RGBA.smul, Scene.frac, List.map_cons, List.sum_cons, RGBA.mk.injEq]
  refine ⟨by rw [mul_one_div], by rw [mul_one_div], by rw [mul_one_div], trivial⟩

theorem writtenValue_zero (s : Scene) (hs : s.subPixels = 0) (bg : RGBA) (i j n : ℕ) :
    writtenValue s bg i j n =
      RGBA.mk (s.sample (s.getRay i j (1/2) (1/2)) bg).r
        (s.sample (s.getRay i j (1/2) (1/2)) bg).g
        (s.sample (s.getRay i j (1/2) (1/2)) bg).b 1 := by
  obtain ⟨inter, shade, getRay, rand, sp⟩ := s
  have hs' : sp = 0 := hs
  subst hs'
  unfold writtenValue
  simp only [sampleLoop]
  have hfrac : Scene.frac ⟨inter, shade, getRay, rand, 0⟩ = 1 := by
    rw [Scene.frac]; norm_num
  rw [hfrac]
  simp [RGBA.smul]

theorem doPixel_rand_indep (s : Scene) (rand2 : ℕ → ℚ) (hs : s.subPixels = 0)
    (f : Film) (n i j : ℕ) :
    doPixel { s with rand := rand2 } f n i j = doPixel s f n i j := by
  obtain ⟨inter, shade, getRay, rand, sp⟩ := s
  have hs' : sp = 0 := hs
  subst hs'
  rfl

theorem tracePixels_rand_indep (s : Scene) (rand2 : ℕ → ℚ) (hs : s.subPixels = 0)
    (j cnt : ℕ) : ∀ (i : ℕ) (st : Film × ℕ),
    tracePixels { s with rand := rand2 } j i cnt st = tracePixels s j i cnt st := by
  induction cnt with
  | zero => intro i st; rfl
  | succ cnt ih =>
    intro i st
    show tracePixels { s with rand := rand2 } j (i + 1) cnt
        (doPixel { s with rand := rand2 } st.1 st.2 i j)
      = tracePixels s j (i + 1) cnt (doPixel s st.1 st.2 i j)
    rw [doPixel_rand_indep s rand2 hs st.1 st.2 i j]
    exact ih (i + 1) (doPixel s st.1 st.2 i j)

theorem traceRows_rand_indep (s : Scene) (rand2 : ℕ → ℚ) (hs : s.subPixels = 0)
    (cnt : ℕ) : ∀ (j : ℕ) (st : Film × ℕ),
    traceRows { s with rand := rand2 } j cnt st = traceRows s j cnt st := by
  induction cnt with
  | zero => intro j st; rfl
  | succ cnt ih =>
    intro j st
    show traceRows { s with rand := rand2 } (j + 1) cnt
        (tracePixels { s with rand := rand2 } j 0 st.1.width st)
      = traceRows s (j + 1) cnt (tracePixels s j 0 st.1.width st)
    rw [tracePixels_rand_indep s rand2 hs j st.1.width 0 st]
    exact ih (j + 1) (tracePixels s j 0 st.1.width st)

theorem traceRange_rand_indep (s : Scene) (rand2 : ℕ → ℚ) (hs : s.subPixels = 0)
    (f : Film) (a b : ℕ) :
    traceRange { s with rand := rand2 } f a b = traceRange s f a b := by
  show (traceRows { s with rand := rand2 } a (b - a) (f, 0)).1
      = (traceRows s a (b - a) (f, 0)).1
  rw [traceRows_rand_indep s rand2 hs (b - a) a (f, 0)]

/-! ## C2: the traced pixel is the equal-weight sample average -/

/-- C2 amended: for every pixel `(i, j)` in the traced range, the value the
tracer writes has RGB channels equal to the equal-weight average (weight
`1/pixelSamples`, `pixelSamples = 1 + mSubPixels`) of the `pixelSamples`
samples — the primary centre-offset sample followed by the round-robin
jittered samples (the jitter counter at this pixel holds
`2·mSubPixels·(width·(j−a) + i)`), each sample being the shader output on a
hit and the framebuffer's pre-trace value at that pixel on a miss — while the
written alpha component is reset to `1` rather than averaged (see the
counterexample against the unamended claim). -/
theorem traced_pixel_is_sample_average (s : Scene) (f : Film) (a b i j : ℕ)
    (hi : i < f.width) (hja : a ≤ j) (hjb : j < b) :
    (pixelSamplesList s (f.pixel i j) i j
        (2 * s.subPixels * f.width * (j - a) + 2 * s.subPixels * i)).length
      = 1 + s.subPixels ∧
    (traceRange s f a b).pixel i j =
      ⟨((pixelSamplesList s (f.pixel i j) i j
          (2 * s.subPixels * f.width * (j - a) + 2 * s.subPixels * i)).map RGBA.r).sum
          / (1 + (s.subPixels : ℚ)),
       ((pixelSamplesList s (f.pixel i j) i j
          (2 * s.subPixels * f.width * (j - a) + 2 * s.subPixels * i)).map RGBA.g).sum
          / (1 + (s.subPixels : ℚ)),
       ((pixelSamplesList s (f.pixel i j) i j
          (2 * s.subPixels * f.width * (j - a) + 2 * s.subPixels * i)).map RGBA.b).sum
          / (1 + (s.subPixels : ℚ)),
       1⟩ := by
  constructor
  · unfold pixelSamplesList jitterSamples
    simp only [List.length_cons, List.length_map, List.length_range]
    omega
  · rw [traceRange_pixel_at s f a b i j hi hja hjb, writtenValue_avg]

/-- C2 counterexample: with a missing primary ray over a pre-seeded background
of alpha `3/10`, the traced pixel (alpha forced to `1` by `c*frac`) differs
from the equal-weight average of its samples (alpha `3/10`), so the written
value is not the average of the samples as RGBA values. -/
theorem traced_pixel_average_cex :
    (traceSeq c2Scene ⟨1, 1, 1, fun _ => ⟨1/5, 3/10, 2/5, 3/10⟩⟩).pixel 0 0 ≠
      rgbaAverage (pixelSamplesList c2Scene
        ((⟨1, 1, 1, fun _ => ⟨1/5, 3/10, 2/5, 3/10⟩⟩ : Film).pixel 0 0) 0 0 0) := by
  with_unfolding_all decide

/-- Witness for `traced_pixel_is_sample_average` on a concrete 1×1 scene. -/
theorem traced_pixel_is_sample_average_witness :
    (0 < (Film.create 1 1).width ∧ (0 : ℕ) ≤ 0 ∧ 0 < 1) ∧
    (traceRange c2Scene (Film.create 1 1) 0 1).pixel 0 0 =
      ⟨((pixelSamplesList c2Scene ((Film.create 1 1).pixel 0 0) 0 0
          (2 * c2Scene.subPixels * (Film.create 1 1).width * (0 - 0)
            + 2 * c2Scene.subPixels * 0)).map RGBA.r).sum
          / (1 + (c2Scene.subPixels : ℚ)),
       ((pixelSamplesList c2Scene ((Film.create 1 1).pixel 0 0) 0 0
          (2 * c2Scene.subPixels * (Film.create 1 1).width * (0 - 0)
            + 2 * c2Scene.subPixels * 0)).map RGBA.g).sum
          / (1 + (c2Scene.subPixels : ℚ)),
       ((pixelSamplesList c2Scene ((Film.create 1 1).pixel 0 0) 0 0
          (2 * c2Scene.subPixels * (Film.create 1 1).width * (0 - 0)
            + 2 * c2Scene.subPixels * 0)).map RGBA.b).sum
          / (1 + (c2Scene.subPixels : ℚ)),
       1⟩ :=
  ⟨⟨by decide, by decide, by decide⟩,
   (traced_pixel_is_sample_average c2Scene (Film.create 1 1) 0 1 0 0
      (by decide) (by decide) (by decide)).2⟩

/-! ## C5: a single pixel sample -/

/-- C5 amended: with `pixelSamples = 1` the jitter table is not allocated
(`setPixelSamples` leaves `mRand = NULL`) and never consulted (the whole
trace is independent of the table's contents), and the tracer writes to each
traced pixel the RGB of the single primary-ray sample taken at the
pixel-centre offsets `(0.5, 0.5)` with the alpha component reset to `1` (the
source writes `c*frac` with `frac = 1`, re-constructing the colour with alpha
`1`; see the counterexample against the unamended claim). -/
theorem single_sample_writes (gen : ℕ → ℕ → ℚ) (seed : ℕ) (s : Scene)
    (hs : s.subPixels = 0) (rand2 : ℕ → ℚ) :
    setPixelSamples gen 1 seed = (0, none) ∧
    (∀ (f : Film) (a b i j : ℕ), i < f.width → a ≤ j → j < b →
      (traceRange s f a b).pixel i j =
        RGBA.mk (s.sample (s.getRay i j (1/2) (1/2)) (f.pixel i j)).r
          (s.sample (s.getRay i j (1/2) (1/2)) (f.pixel i j)).g
          (s.sample (s.getRay i j (1/2) (1/2)) (f.pixel i j)).b 1) ∧
    (∀ (f : Film) (a b : ℕ),
      traceRange { s with rand := rand2 } f a b = traceRange s f a b) := by
  refine ⟨rfl, ?_, ?_⟩
  · intro f a b i j hi hja hjb
    rw [traceRange_pixel_at s f a b i j hi hja hjb, writtenValue_zero s hs]
  · intro f a b
    exact traceRange_rand_indep s rand2 hs f a b

/-- C5 counterexample: with `pixelSamples = 1` and a shader returning alpha
`1/2`, the traced pixel is not exactly the primary-ray result — its alpha
has been reset to `1` by the final `c*frac` write. -/
theorem single_sample_writes_cex :
    (traceSeq c5Scene (Film.create 1 1)).pixel 0 0 ≠
      c5Scene.sample (c5Scene.getRay 0 0 (1/2) (1/2)) ((Film.create 1 1).pixel 0 0) := by
  with_unfolding_all decide

/-- Witness for `single_sample_writes` on the concrete scene `c5Scene`. -/
theorem single_sample_writes_witness :
    (c5Scene.subPixels = 0 ∧ 0 < (Film.create 1 1).width ∧ (0 : ℕ) ≤ 0 ∧ 0 < 1) ∧
    setPixelSamples (fun _ _ => 0) 1 7 = (0, none) ∧
    (traceRange c5Scene (Film.create 1 1) 0 1).pixel 0 0 =
      RGBA.mk (c5Scene.sample (c5Scene.getRay 0 0 (1/2) (1/2)) ((Film.create 1 1).pixel 0 0)).r
        (c5Scene.sample (c5Scene.getRay 0 0 (1/2) (1/2)) ((Film.create 1 1).pixel 0 0)).g
        (c5Scene.sample (c5Scene.getRay 0 0 (1/2) (1/2)) ((Film.create 1 1).pixel 0 0)).b 1 :=
  ⟨⟨rfl, by decide, by decide, by decide⟩,
   (single_sample_writes (fun _ _ => 0) 7 c5Scene rfl (fun _ => 1)).1,
   (single_sample_writes (fun _ _ => 0) 7 c5Scene rfl (fun _ => 1)).2.1
      (Film.create 1 1) 0 1 0 0 (by decide) (by decide) (by decide)⟩

/-! ## C10: alpha is reset to 1 by the RGBA operators and by the tracer -/

/-- C10: RGBA scalar multiplication, componentwise multiplication and binary
addition all return a colour whose alpha is 1 (the three-argument constructor
defaults it), and consequently every pixel the tracer writes — it stores
`c*frac` — has alpha exactly 1 after tracing, regardless of the shader's or
the pre-seeded background's alpha. -/
theorem rgba_alpha_one :
    (∀ c s, (RGBA.smul c s).a = 1) ∧ (∀ c rhs, (RGBA.add c rhs).a = 1) ∧
    (∀ c rhs, (RGBA.mul c rhs).a = 1) ∧
    (∀ sc f n i j, ((doPixel sc f n i j).1.pixel i j).a = 1) ∧
    (∀ (sc : Scene) (f : Film) (a b i j : ℕ), i < f.width → a ≤ j → j < b →
      ((traceRange sc f a b).pixel i j).a = 1) := by
  refine ⟨fun _ _ => rfl, fun _ _ => rfl, fun _ _ => rfl, fun sc f n i j => ?_, ?_⟩
  · show ((f.setPixel i j (((sampleLoop sc (f.pixel i j) i j n sc.subPixels
        (sc.sample (sc.getRay i j (1/2) (1/2)) (f.pixel i j))).1).smul sc.frac)).pixel i j).a = 1
    rw [setPixel_pixel_self]
    rfl
  · intro sc f a b i j hi hja hjb
    rw [traceRange_pixel_at sc f a b i j hi hja hjb]
    rfl

/-- Witness for `rgba_alpha_one` on a concrete traced pixel. -/
theorem rgba_alpha_one_witness :
    (0 < (Film.create 1 2).width ∧ (0 : ℕ) ≤ 0 ∧ 0 < 2) ∧
    ((traceRange c1Scene (Film.create 1 2) 0 2).pixel 0 0).a = 1 :=
  ⟨⟨by decide, by decide, by decide⟩,
   rgba_alpha_one.2.2.2.2 c1Scene (Film.create 1 2) 0 2 0 0 (by decide) (by decide) (by decide)⟩
